import Mathlib

/-!
Shallow embedding of `src/src/G4Geometry.cpp` (g4goupil-example): the
geometry constants set up by the `DetectorConstruction` constructor, the
spectrum normalisation it performs, the two samplers `RandomiseState`
(forward) and `RandomiseBackward` (backward importance sampling), and the
library entry point `g4randomize_source_volume`.

Random draws (successive `G4UniformRand()` calls) are modelled as an
explicit list of real numbers consumed in call order; a sampler returns
`none` when the list is exhausted, so the unbounded C++ rejection loop
becomes structural recursion on the remaining draws.  IEEE doubles are
modelled as real numbers (with Lean's total-division convention where the
C++ would divide by zero); CLHEP length units are embedded by their
numerical values (millimeter = 1).
-/

namespace G4Geometry

noncomputable section
open Classical

/-- CLHEP::mm, the internal length unit (= 1). -/
def mm : ℝ := 1

/-- CLHEP::cm (= 10 mm). -/
def cm : ℝ := 10 * mm

/-- CLHEP::m (= 1000 mm). -/
def m : ℝ := 1000 * mm

/-- CLHEP::km (= 1000 m). -/
def km : ℝ := 1000 * m

/-- CLHEP::um, a micrometer. -/
def um : ℝ := 0.000001 * m

/-- CLHEP::cm2, a square centimeter. -/
def cm2 : ℝ := cm * cm

/-- CLHEP::cm3, a cubic centimeter. -/
def cm3 : ℝ := cm * cm * cm

/-- `detectorSize`, set by the constructor: 20 m x 20 m x 10 m. -/
def detectorSize : Fin 3 → ℝ := ![20 * m, 20 * m, 10 * m]

/-- `airSize`, set by the constructor: 2 km x 2 km x 1 km. -/
def airSize : Fin 3 → ℝ := ![2 * km, 2 * km, 1 * km]

/-- `groundSize`, set by the constructor: lateral extents copied from
`airSize`, vertical extent 1 m. -/
def groundSize : Fin 3 → ℝ := ![2 * km, 2 * km, 1 * m]

/-- `worldSize`, set by the constructor: lateral extents copied from
`airSize`, vertical extent `groundSize[2] + airSize[2]`. -/
def worldSize : Fin 3 → ℝ := ![2 * km, 2 * km, 1 * m + 1 * km]

/-- `detectorOffset`, set by the constructor:
`0.5 * (-airSize[2] + detectorSize[2] + groundSize[2]) + 5 cm`. -/
def detectorOffset : ℝ :=
  0.5 * (-airSize 2 + detectorSize 2 + groundSize 2) + 5 * cm

/-- The vertical offset of the air box centre used by the forward sampler:
`airOffset = 0.5 * groundSize[2]`. -/
def airOffset : ℝ := 0.5 * groundSize 2

/-- The cumulative-sum loop of the constructor's spectrum normalisation:
`cdf += pair.second * nrm; pair.second = cdf;` applied to each pair in
input order, starting from the accumulator `cdf`. -/
def cumulate (nrm : ℝ) : ℝ → List (ℝ × ℝ) → List (ℝ × ℝ)
  | _, [] => []
  | cdf, p :: rest =>
    let cdf2 := cdf + p.2 * nrm
    (p.1, cdf2) :: cumulate nrm cdf2 rest

/-- The spectrum normalisation performed by the `DetectorConstruction`
constructor: sum the raw intensities, take `nrm = 1 / sum` (real division;
the C++ divides IEEE doubles, unchecked), and replace each intensity by the
running cumulative sum of `intensity * nrm`. -/
def normalizeSpectrum (raw : List (ℝ × ℝ)) : List (ℝ × ℝ) :=
  cumulate (1 / (raw.map Prod.snd).sum) 0 raw

/-- The linear scan shared by both samplers' energy selection:
starting from the fallback `d` (the last entry's energy in the source),
return the energy of the first pair whose cumulative weight `c` satisfies
`u <= c`, and `d` when no pair does. -/
def scanEnergy (u d : ℝ) : List (ℝ × ℝ) → ℝ
  | [] => d
  | p :: rest => if u ≤ p.2 then p.1 else scanEnergy u d rest

/-- Energy selection as written in `RandomiseState` / `RandomiseBackward`:
`energy = spectrum.back().first; for (pair : spectrum) if (u <= pair.second)
\x7b energy = pair.first; break; \x7d`. -/
def sampleEnergy (spectrum : List (ℝ × ℝ)) (u : ℝ) : ℝ :=
  scanEnergy u ((spectrum.getLastD (0, 0)).1) spectrum

/-- The `goupil_state` record filled by the samplers. -/
structure GoupilState where
  energy : ℝ
  position : Fin 3 → ℝ
  direction : Fin 3 → ℝ
  weight : ℝ

/-- The forward sampler's direction formula: from the draws-derived values
`cosTheta` and `phi`, `sinTheta = sqrt(1 - cosTheta^2)` and the direction is
`(sinTheta*cosPhi, sinTheta*sinPhi, cosTheta)`. -/
def forwardDirection (cosTheta phi : ℝ) : Fin 3 → ℝ :=
  ![Real.sqrt (1 - cosTheta * cosTheta) * Real.cos phi,
    Real.sqrt (1 - cosTheta * cosTheta) * Real.sin phi,
    cosTheta]

/-- The forward sampler's rejection loop: draw three uniforms, form the
candidate point inside the air box (vertically offset by `airOffset`), and
accept it when it falls outside the detector extent on at least one axis;
otherwise retry on the remaining draws (`none` when the draws run out). -/
def positionLoop : List ℝ → Option ((Fin 3 → ℝ) × List ℝ)
  | r0 :: r1 :: r2 :: rest =>
    let p : Fin 3 → ℝ :=
      ![airSize 0 * (0.5 - r0),
        airSize 1 * (0.5 - r1),
        airSize 2 * (0.5 - r2) + airOffset]
    if |p 0| > 0.5 * detectorSize 0 ∨ |p 1| > 0.5 * detectorSize 1 ∨
        |p 2 - detectorOffset| > 0.5 * detectorSize 2 then
      some (p, rest)
    else
      positionLoop rest
  | _ => none

/-- `DetectorConstruction::RandomiseState`: draw `cosTheta` and `phi` and set
the direction, rejection-sample the position inside the air box but outside
the detector box (converted to cm), and select the energy from the spectrum
table with a fresh uniform.  The weight field is not written. -/
def RandomiseState (spectrum : List (ℝ × ℝ)) (s : GoupilState)
    (rs : List ℝ) : Option GoupilState :=
  match rs with
  | u1 :: u2 :: rest =>
    match positionLoop rest with
    | some (p, rest2) =>
      match rest2 with
      | u :: _ =>
        some { s with
          direction := forwardDirection (2 * u1 - 1) (2 * Real.pi * u2),
          position := fun i => p i / cm,
          energy := sampleEnergy spectrum u }
      | [] => none
    | none => none
  | _ => none

/-- `c[0]` of `RandomiseBackward`: the area of a face perpendicular to the
x axis, `detectorSize[1] * detectorSize[2]`. -/
def c0 : ℝ := detectorSize 1 * detectorSize 2

/-- `c[1]` of `RandomiseBackward`: `c[0] + detectorSize[2] * detectorSize[0]`. -/
def c1 : ℝ := c0 + detectorSize 2 * detectorSize 0

/-- `c[2]` of `RandomiseBackward`, the accumulated face-area total:
`c[1] + detectorSize[0] * detectorSize[1]`. -/
def c2 : ℝ := c1 + detectorSize 0 * detectorSize 1

/-- `emin`, the fixed energy floor `1E-02` of the auxiliary branch. -/
def emin : ℝ := 0.01

/-- Builds the vector whose component at `axis` is `a`, at `axis + 1`
(mod 3) is `b` and at `axis + 2` (mod 3) is `c`, mirroring the assignment
pattern `v[axis] = a; v[(axis+1)%3] = b; v[(axis+2)%3] = c`. -/
def assign3 (axis : Fin 3) (a b c : ℝ) : Fin 3 → ℝ :=
  fun i => if i = axis then a else if i = axis + 1 then b else c

/-- `DetectorConstruction::RandomiseBackward`: select a detector face axis by
cumulative face area and a side by the position of the draw within the
axis's bucket, place the point on that face (1 um outside, converted to cm),
sample a cosine-weighted inward direction, draw the source energy from the
spectrum, then either reuse it directly (probability `alpha`, weight divided
by `alpha`) or draw the state energy log-uniformly in `[emin, sourceEnergy]`
(weight multiplied by `energy * ln(sourceEnergy/emin) / (1 - alpha)`).
Returns the updated state paired with the source energy. -/
def RandomiseBackward (spectrum : List (ℝ × ℝ)) (alpha : ℝ)
    (s : GoupilState) (rs : List ℝ) : Option (GoupilState × ℝ) :=
  match rs with
  | rFace :: rPos1 :: rPos2 :: rDir :: rPhi :: rZeta :: rest =>
    let r := c2 * rFace
    let axis : Fin 3 := if r ≤ c0 then 0 else if r ≤ c1 then 1 else 2
    let cAxis : ℝ := if r ≤ c0 then c0 else if r ≤ c1 then c1 else c2
    let delta : ℝ := if r ≤ c0 then c0 else if r ≤ c1 then c1 - c0 else c2 - c1
    let side : ℝ := if cAxis - r > 0.5 * delta then -1 else 1
    let detPos : Fin 3 → ℝ := ![0, 0, detectorOffset]
    let posRaw : Fin 3 → ℝ :=
      assign3 axis
        (side * (0.5 * detectorSize axis + 1 * um) + detPos axis)
        (detectorSize (axis + 1) * (0.5 - rPos1) + detPos (axis + 1))
        (detectorSize (axis + 2) * (0.5 - rPos2) + detPos (axis + 2))
    let position : Fin 3 → ℝ := fun i => posRaw i / cm
    let cosTheta := Real.sqrt rDir
    let sinTheta := Real.sqrt (1 - rDir)
    let phi := 2 * Real.pi * rPhi
    let direction : Fin 3 → ℝ :=
      assign3 axis
        (-side * cosTheta)
        (-side * sinTheta * Real.cos phi)
        (-side * sinTheta * Real.sin phi)
    let w := 2 * c2 / cm2 * Real.pi
    let sourceEnergy := sampleEnergy spectrum rZeta
    match rest with
    | rBranch :: rest2 =>
      if rBranch < alpha then
        some ({ s with
            energy := sourceEnergy, position := position,
            direction := direction, weight := w / alpha },
          sourceEnergy)
      else
        match rest2 with
        | rE :: _ =>
          let lnr := Real.log (sourceEnergy / emin)
          let energy := emin * Real.exp (lnr * rE)
          some ({ s with
              energy := energy, position := position,
              direction := direction,
              weight := w * (energy * lnr / (1 - alpha)) },
            sourceEnergy)
        | [] => none
    | [] => none
  | _ => none

/-- The library entry point `g4randomize_source_volume`: air volume minus
detector volume, converted to cm^3. -/
def g4randomize_source_volume : ℝ :=
  (airSize 0 * airSize 1 * airSize 2 -
    detectorSize 0 * detectorSize 1 * detectorSize 2) / cm3

/-! ### Helper lemmas -/

/-- The cumulative-sum loop preserves the energies (first components). -/
theorem cumulate_map_fst (nrm : ℝ) :
    ∀ (cdf : ℝ) (l : List (ℝ × ℝ)),
      (cumulate nrm cdf l).map Prod.fst = l.map Prod.fst := by
  intro cdf l
  induction l generalizing cdf with
  | nil => rfl
  | cons p rest ih => simp [cumulate, ih]

/-- The last cumulative weight produced by the loop is the accumulator plus
the (scaled) sum of the remaining intensities. -/
theorem cumulate_getLastD (nrm : ℝ) :
    ∀ (cdf : ℝ) (l : List (ℝ × ℝ)),
      ((cumulate nrm cdf l).map Prod.snd).getLastD cdf =
        cdf + (l.map Prod.snd).sum * nrm := by
  intro cdf l
  induction l generalizing cdf with
  | nil => simp [cumulate]
  | cons p rest ih =>
    simp only [cumulate, List.map_cons, List.getLastD_cons, ih, List.sum_cons]
    ring

/-- With a nonnegative scale and nonnegative intensities, the cumulative
weights form a chain that never decreases, starting from the accumulator. -/
theorem cumulate_chain (nrm : ℝ) (hn : 0 ≤ nrm) :
    ∀ (cdf : ℝ) (l : List (ℝ × ℝ)), (∀ p ∈ l, 0 ≤ p.2) →
      List.Chain (· ≤ ·) cdf ((cumulate nrm cdf l).map Prod.snd) := by
  intro cdf l
  induction l generalizing cdf with
  | nil => intro _; simp [cumulate]
  | cons p rest ih =>
    intro h
    have hp : 0 ≤ p.2 := h p (by simp)
    refine List.Chain.cons ?_ (ih _ fun q hq => h q (by simp [hq]))
    exact le_add_of_nonneg_right (mul_nonneg hp hn)

/-- A chain from a head element yields a chain over the tail list alone. -/
theorem chain_to_chain' {α : Type} {R : α → α → Prop} {a : α} {l : List α}
    (h : List.Chain R a l) : List.Chain' R l := by
  cases l with
  | nil => trivial
  | cons b t => exact (List.chain_cons.mp h).2

/-- On an all-zero-intensity list the loop copies the energies and leaves
every cumulative weight at zero, whatever the scale. -/
theorem cumulate_allzero (nrm : ℝ) :
    ∀ l : List (ℝ × ℝ), (∀ p ∈ l, p.2 = 0) →
      cumulate nrm 0 l = l.map fun p => (p.1, 0) := by
  intro l
  induction l with
  | nil => intro _; rfl
  | cons p rest ih =>
    intro h
    have hp : p.2 = 0 := h p (by simp)
    simp [cumulate, hp, ih fun q hq => h q (by simp [hq])]

/-- The second components of a list mapped to zero weights end in zero. -/
theorem map_zero_getLastD (l : List (ℝ × ℝ)) :
    ((l.map fun p => (p.1, (0 : ℝ))).map Prod.snd).getLastD 0 = 0 := by
  induction l with
  | nil => rfl
  | cons p rest ih =>
    simp only [List.map_cons, List.getLastD_cons]
    exact ih

/-- The energy scan returns the first entry whose cumulative weight reaches
the draw, skipping every entry it exceeds. -/
theorem scanEnergy_hit (u d : ℝ) :
    ∀ (l1 : List (ℝ × ℝ)) (p : ℝ × ℝ) (l2 : List (ℝ × ℝ)),
      (∀ q ∈ l1, q.2 < u) → u ≤ p.2 →
      scanEnergy u d (l1 ++ p :: l2) = p.1 := by
  intro l1 p l2
  induction l1 with
  | nil => intro _ hp; simp [scanEnergy, hp]
  | cons q t ih =>
    intro h hp
    have hq : q.2 < u := h q (by simp)
    simp only [List.cons_append, scanEnergy, if_neg (not_le.mpr hq)]
    exact ih (fun q' hq' => h q' (by simp [hq'])) hp

/-- When the draw exceeds every cumulative weight the scan keeps the
fallback value. -/
theorem scanEnergy_miss (u d : ℝ) :
    ∀ l : List (ℝ × ℝ), (∀ q ∈ l, q.2 < u) → scanEnergy u d l = d := by
  intro l
  induction l with
  | nil => intro _; rfl
  | cons q t ih =>
    intro h
    have hq : q.2 < u := h q (by simp)
    simp only [scanEnergy, if_neg (not_le.mpr hq)]
    exact ih fun q' hq' => h q' (by simp [hq'])

/-- Any point accepted by the rejection loop, fed with draws in [0, 1),
lies within half the air extents of the air box centre and outside the
detector extent on at least one axis (the accept condition). -/
theorem positionLoop_spec : ∀ (rs : List ℝ), (∀ r ∈ rs, 0 ≤ r ∧ r < 1) →
    ∀ p rest, positionLoop rs = some (p, rest) →
      (|p 0| ≤ 0.5 * airSize 0 ∧ |p 1| ≤ 0.5 * airSize 1 ∧
        |p 2 - airOffset| ≤ 0.5 * airSize 2) ∧
      (|p 0| > 0.5 * detectorSize 0 ∨ |p 1| > 0.5 * detectorSize 1 ∨
        |p 2 - detectorOffset| > 0.5 * detectorSize 2) := by
  intro rs
  induction rs using positionLoop.induct with
  | case1 r0 r1 r2 rest pv h =>
    intro hr p q heq
    rw [positionLoop, if_pos h] at heq
    cases heq
    refine ⟨?_, h⟩
    have h0 := hr r0 (by simp)
    have h1 := hr r1 (by simp)
    have h2 := hr r2 (by simp)
    refine ⟨?_, ?_, ?_⟩
    · simp only [Matrix.cons_val_zero, airSize, km, m, mm]
      rw [abs_le]
      constructor <;> nlinarith [h0.1, h0.2]
    · simp only [Matrix.cons_val_one, Matrix.head_cons, airSize, km, m, mm]
      rw [abs_le]
      constructor <;> nlinarith [h1.1, h1.2]
    · simp only [Matrix.cons_val_two, Matrix.tail_cons, Matrix.head_cons,
        airSize, km, m, mm]
      rw [abs_le]
      constructor <;> nlinarith [h2.1, h2.2]
  | case2 r0 r1 r2 rest pv h ih =>
    intro hr p q heq
    rw [positionLoop, if_neg h] at heq
    exact ih (fun r hmem => hr r (by simp [hmem])) p q heq
  | case3 rs h =>
    intro hr p q heq
    rw [positionLoop] at heq
    · exact absurd heq (by simp)
    · exact h

/-- Inversion for a successful forward sample: the draw list splits into the
two angle draws, the loop draws and the energy draw, and the output state is
the input with direction, position (in cm) and energy replaced. -/
theorem RandomiseState_some (spectrum : List (ℝ × ℝ)) (s s' : GoupilState)
    (rs : List ℝ) (h : RandomiseState spectrum s rs = some s') :
    ∃ u1 u2 rest p u t,
      rs = u1 :: u2 :: rest ∧ positionLoop rest = some (p, u :: t) ∧
      s' = { s with
        direction := forwardDirection (2 * u1 - 1) (2 * Real.pi * u2),
        position := fun i => p i / cm,
        energy := sampleEnergy spectrum u } := by
  cases rs with
  | nil =>
    rw [show RandomiseState spectrum s [] = none from rfl] at h
    exact absurd h (by simp)
  | cons u1 t1 =>
    cases t1 with
    | nil =>
      rw [show RandomiseState spectrum s [u1] = none from rfl] at h
      exact absurd h (by simp)
    | cons u2 rest =>
      rw [RandomiseState] at h
      cases hpl : positionLoop rest with
      | none => rw [hpl] at h; exact absurd h (by simp)
      | some pr =>
        obtain ⟨p, rest2⟩ := pr
        rw [hpl] at h
        cases rest2 with
        | nil => exact absurd h (by simp)
        | cons u t =>
          exact ⟨u1, u2, rest, p, u, t, rfl, hpl, (Option.some.inj h).symm⟩

/-! ### Claim theorems -/

/-- A one-line spectrum table used to instantiate the samplers on concrete
inputs: a single entry of energy 1 with cumulative weight 1. -/
def exSpec : List (ℝ × ℝ) := [(1, 1)]

/-- A concrete input state (weight preset to the unbiased value 1). -/
def st0 : GoupilState := ⟨0, ![0, 0, 0], ![0, 0, 0], 1⟩

/-- A concrete draw list for the forward sampler: angle draws 0.5 and 0,
one accepted rejection-loop iteration (0, 0, 0) and energy draw 0. -/
def rs0 : List ℝ := [0.5, 0, 0, 0, 0, 0]

/-- The forward sample produced from `st0` and `rs0`: direction (1, 0, 0),
position (100000, 100000, 50050) cm, energy 1, weight untouched. -/
def S0 : GoupilState := ⟨1, ![100000, 100000, 50050], ![1, 0, 0], 1⟩

/-- The rejection loop accepts the draws (0, 0, 0) at once: the candidate
point sits on the lateral air boundary, far outside the detector. -/
theorem positionLoop_eval :
    positionLoop [0, 0, 0, 0] =
      some (![airSize 0 * (0.5 - 0), airSize 1 * (0.5 - 0),
        airSize 2 * (0.5 - 0) + airOffset], [0]) := by
  rw [positionLoop]
  rw [if_pos]
  left
  norm_num [airSize, detectorSize, km, m, mm]

/-- Concrete evaluation of the forward sampler on `st0` and `rs0`. -/
theorem RandomiseState_eval : RandomiseState exSpec st0 rs0 = some S0 := by
  show RandomiseState exSpec st0 [0.5, 0, 0, 0, 0, 0] = some S0
  rw [RandomiseState, positionLoop_eval]
  refine congrArg some ?_
  have hd : forwardDirection (2 * (0.5 : ℝ) - 1) (2 * Real.pi * 0) =
      ![1, 0, 0] := by
    funext i
    fin_cases i <;>
      norm_num [forwardDirection, Real.cos_zero, Real.sin_zero,
        Real.sqrt_one, Matrix.cons_val_zero, Matrix.cons_val_one,
        Matrix.head_cons, Matrix.cons_val_two, Matrix.tail_cons]
  have hp : (fun i => (![airSize 0 * ((0.5 : ℝ) - 0),
      airSize 1 * (0.5 - 0), airSize 2 * (0.5 - 0) + airOffset] :
        Fin 3 → ℝ) i / cm) = ![100000, 100000, 50050] := by
    funext i
    fin_cases i <;>
      norm_num [airSize, airOffset, groundSize, km, m, mm, cm,
        Matrix.cons_val_zero, Matrix.cons_val_one, Matrix.head_cons,
        Matrix.cons_val_two, Matrix.tail_cons]
  have he : sampleEnergy exSpec 0 = 1 := by
    rw [exSpec, sampleEnergy]
    simp only [scanEnergy]
    rw [if_pos (by norm_num)]
  rw [hd, hp, he]
  rfl

/-- C9: `g4randomize_source_volume()` returns the air volume minus the
detector volume in cm^3, which for the fixed design constants is the single
value `4e15 - 4e9 = 3.999996e15`. -/
theorem source_volume_C9 :
    g4randomize_source_volume = 4e15 - 4e9 ∧
    g4randomize_source_volume = 3.999996e15 := by
  constructor <;>
    norm_num [g4randomize_source_volume, airSize, detectorSize, cm3, cm, km,
      m, mm, Matrix.cons_val_zero, Matrix.cons_val_one, Matrix.head_cons,
      Matrix.cons_val_two, Matrix.tail_cons]

/-- C1 (amended): `RandomiseState` never writes the weight field — the
produced state's weight always equals the input state's weight, so it is
1.0 after the call exactly when the caller preset it to 1.0. -/
theorem forward_weight_C1 (spectrum : List (ℝ × ℝ)) (s : GoupilState)
    (rs : List ℝ) :
    (RandomiseState spectrum s rs).map GoupilState.weight =
      (RandomiseState spectrum s rs).map fun _ => s.weight := by
  cases hres : RandomiseState spectrum s rs with
  | none => rfl
  | some s' =>
    obtain ⟨u1, u2, rest, p, u, t, _, _, hs'⟩ :=
      RandomiseState_some _ _ _ _ hres
    rw [hs']
    rfl

/-- C1 (counterexample): a forward sample drawn into a state whose weight
field holds 2 comes back with weight 2, not the claimed 1.0 — the sampler
does not set the weight. -/
theorem forward_weight_C1_cex :
    (RandomiseState [(1, 1)] ⟨0, ![0, 0, 0], ![0, 0, 0], 2⟩
        [0.5, 0, 0, 0, 0, 0]).map GoupilState.weight = some 2 ∧
    (2 : ℝ) ≠ 1 := by
  refine ⟨?_, by norm_num⟩
  rw [RandomiseState, positionLoop_eval]
  rfl

/-- C5: every position produced by the forward sampler lies inside the air
box — each coordinate within half the air extent of the air box centre,
which sits `airOffset` above the origin — and strictly outside the detector
box on at least one axis (all in the emitted cm units). -/
theorem forward_position_C5 (spectrum : List (ℝ × ℝ)) (s s' : GoupilState)
    (rs : List ℝ) (hr : ∀ r ∈ rs, 0 ≤ r ∧ r < 1)
    (h : RandomiseState spectrum s rs = some s') :
    (|s'.position 0| ≤ 0.5 * airSize 0 / cm ∧
      |s'.position 1| ≤ 0.5 * airSize 1 / cm ∧
      |s'.position 2 - airOffset / cm| ≤ 0.5 * airSize 2 / cm) ∧
    (|s'.position 0| > 0.5 * detectorSize 0 / cm ∨
      |s'.position 1| > 0.5 * detectorSize 1 / cm ∨
      |s'.position 2 - detectorOffset / cm| > 0.5 * detectorSize 2 / cm) := by
  obtain ⟨u1, u2, rest, p, u, t, rfl, hpl, hs'⟩ :=
    RandomiseState_some _ _ _ _ h
  have hrest : ∀ r ∈ rest, 0 ≤ r ∧ r < 1 := fun r hm => hr r (by simp [hm])
  obtain ⟨⟨b0, b1, b2⟩, hacc⟩ := positionLoop_spec rest hrest p (u :: t) hpl
  have hcm : (0 : ℝ) < cm := by norm_num [cm, mm]
  have hpos : ∀ i, s'.position i = p i / cm := by intro i; rw [hs']
  refine ⟨⟨?_, ?_, ?_⟩, ?_⟩
  · rw [hpos, abs_div, abs_of_pos hcm]
    exact (div_le_div_iff_of_pos_right hcm).mpr b0
  · rw [hpos, abs_div, abs_of_pos hcm]
    exact (div_le_div_iff_of_pos_right hcm).mpr b1
  · rw [hpos, ← sub_div, abs_div, abs_of_pos hcm]
    exact (div_le_div_iff_of_pos_right hcm).mpr b2
  · rcases hacc with hx | hx | hx
    · left
      rw [hpos, abs_div, abs_of_pos hcm]
      exact (div_lt_div_iff_of_pos_right hcm).mpr hx
    · right; left
      rw [hpos, abs_div, abs_of_pos hcm]
      exact (div_lt_div_iff_of_pos_right hcm).mpr hx
    · right; right
      rw [hpos, ← sub_div, abs_div, abs_of_pos hcm]
      exact (div_lt_div_iff_of_pos_right hcm).mpr hx

/-- C5 witness: the concrete forward sample `S0` produced from the draws
`rs0` satisfies both containment conditions. -/
theorem forward_position_C5_witness :
    (∀ r ∈ rs0, 0 ≤ r ∧ r < 1) ∧
    ((|S0.position 0| ≤ 0.5 * airSize 0 / cm ∧
      |S0.position 1| ≤ 0.5 * airSize 1 / cm ∧
      |S0.position 2 - airOffset / cm| ≤ 0.5 * airSize 2 / cm) ∧
    (|S0.position 0| > 0.5 * detectorSize 0 / cm ∨
      |S0.position 1| > 0.5 * detectorSize 1 / cm ∨
      |S0.position 2 - detectorOffset / cm| > 0.5 * detectorSize 2 / cm)) := by
  have hyp : ∀ r ∈ rs0, 0 ≤ r ∧ r < 1 := by
    intro r hm
    rw [rs0] at hm
    simp only [List.mem_cons, List.not_mem_nil, or_false] at hm
    rcases hm with rfl | rfl | rfl | rfl | rfl | rfl <;> norm_num
  exact ⟨hyp, forward_position_C5 exSpec st0 S0 rs0 hyp RandomiseState_eval⟩

/-- C6: the forward sampler's direction, built from any polar draw
`cosTheta` in [-1, 1] and any azimuth, is a unit vector: the squares of
its components sum to exactly 1 in real arithmetic. -/
theorem forward_direction_C6 (cosTheta phi : ℝ) (h1 : -1 ≤ cosTheta)
    (h2 : cosTheta ≤ 1) :
    forwardDirection cosTheta phi 0 ^ 2 + forwardDirection cosTheta phi 1 ^ 2 +
      forwardDirection cosTheta phi 2 ^ 2 = 1 := by
  have hnn : 0 ≤ 1 - cosTheta * cosTheta := by nlinarith
  have hs : Real.sqrt (1 - cosTheta * cosTheta) ^ 2 = 1 - cosTheta * cosTheta :=
    Real.sq_sqrt hnn
  have ht := Real.sin_sq_add_cos_sq phi
  simp only [forwardDirection, Matrix.cons_val_zero, Matrix.cons_val_one,
    Matrix.head_cons, Matrix.cons_val_two, Matrix.tail_cons]
  linear_combination (Real.cos phi ^ 2 + Real.sin phi ^ 2) * hs +
    (1 - cosTheta * cosTheta) * ht

/-- C6 witness at the draws `cosTheta = 0`, `phi = 0`. -/
theorem forward_direction_C6_witness :
    ((-1 : ℝ) ≤ 0 ∧ (0 : ℝ) ≤ 1) ∧
    forwardDirection 0 0 0 ^ 2 + forwardDirection 0 0 1 ^ 2 +
      forwardDirection 0 0 2 ^ 2 = 1 :=
  ⟨⟨by norm_num, by norm_num⟩,
    forward_direction_C6 0 0 (by norm_num) (by norm_num)⟩

/-- C3: spectrum construction from pairs with nonnegative intensities of
positive sum replaces each intensity by the normalised running cumulative
sum, a non-decreasing sequence ending at exactly 1; for the 3-entry
spectrum with intensities (1, 1, 2) the cumulative weights are
(0.25, 0.5, 1). -/
theorem spectrum_normalize_C3 (raw : List (ℝ × ℝ))
    (h1 : ∀ p ∈ raw, 0 ≤ p.2) (h2 : 0 < (raw.map Prod.snd).sum) :
    List.Chain' (· ≤ ·) ((normalizeSpectrum raw).map Prod.snd) ∧
    ((normalizeSpectrum raw).map Prod.snd).getLastD 0 = 1 ∧
    (normalizeSpectrum [(0.5, 1), (1, 1), (1.5, 2)]).map Prod.snd =
      [0.25, 0.5, 1] := by
  refine ⟨?_, ?_, ?_⟩
  · have hn : 0 ≤ 1 / (raw.map Prod.snd).sum := by positivity
    exact chain_to_chain' (cumulate_chain _ hn 0 raw h1)
  · have := cumulate_getLastD (1 / (raw.map Prod.snd).sum) 0 raw
    rw [normalizeSpectrum, this, zero_add, mul_one_div,
      div_self (ne_of_gt h2)]
  · norm_num [normalizeSpectrum, cumulate]

/-- C3 witness at the concrete 3-entry spectrum with intensities (1,1,2). -/
theorem spectrum_normalize_C3_witness :
    (∀ p ∈ [((0.5 : ℝ), (1 : ℝ)), (1, 1), (1.5, 2)], 0 ≤ p.2) ∧
    (0 : ℝ) < (([((0.5 : ℝ), (1 : ℝ)), (1, 1), (1.5, 2)]).map Prod.snd).sum ∧
    (List.Chain' (· ≤ ·)
        ((normalizeSpectrum [((0.5 : ℝ), (1 : ℝ)), (1, 1), (1.5, 2)]).map
          Prod.snd) ∧
      ((normalizeSpectrum [((0.5 : ℝ), (1 : ℝ)), (1, 1), (1.5, 2)]).map
          Prod.snd).getLastD 0 = 1 ∧
      (normalizeSpectrum [(0.5, 1), (1, 1), (1.5, 2)]).map Prod.snd =
        [0.25, 0.5, 1]) :=
  ⟨by norm_num, by norm_num,
    spectrum_normalize_C3 _ (by norm_num) (by norm_num)⟩

/-- C4: the inverse-CDF scan returns the energy of the first entry whose
cumulative weight reaches the draw, and falls back to the last entry's
energy when the draw exceeds every cumulative weight; on the table
(0.25, 0.5, 1) a draw of 0 selects the first entry and 0.3 the second. -/
theorem spectrum_sample_C4 (spectrum l1 l2 : List (ℝ × ℝ)) (p : ℝ × ℝ)
    (u : ℝ) (h0 : 0 ≤ u) (h1 : u < 1) :
    (spectrum = l1 ++ p :: l2 → (∀ q ∈ l1, q.2 < u) → u ≤ p.2 →
      sampleEnergy spectrum u = p.1) ∧
    ((∀ q ∈ spectrum, q.2 < u) →
      sampleEnergy spectrum u = (spectrum.getLastD (0, 0)).1) ∧
    sampleEnergy [(5, 0.25), (7, 0.5), (9, 1)] 0 = 5 ∧
    sampleEnergy [(5, 0.25), (7, 0.5), (9, 1)] 0.3 = 7 := by
  refine ⟨?_, ?_, ?_, ?_⟩
  · intro hs hl hp
    rw [sampleEnergy, hs, scanEnergy_hit _ _ _ _ _ hl hp]
  · intro h
    rw [sampleEnergy, scanEnergy_miss _ _ _ h]
  · rw [sampleEnergy]
    simp only [scanEnergy]
    rw [if_pos (by norm_num)]
  · rw [sampleEnergy]
    simp only [scanEnergy]
    rw [if_neg (by norm_num), if_pos (by norm_num)]

/-- C4 witness: the concrete table (0.25, 0.5, 1) split around its second
entry, with the draw 0.3. -/
theorem spectrum_sample_C4_witness :
    ((0 : ℝ) ≤ 0.3 ∧ (0.3 : ℝ) < 1) ∧
    (([((5 : ℝ), (0.25 : ℝ)), (7, 0.5), (9, 1)] :
        List (ℝ × ℝ)) = [(5, 0.25)] ++ (7, 0.5) :: [(9, 1)] →
      (∀ q ∈ [((5 : ℝ), (0.25 : ℝ))], q.2 < 0.3) → (0.3 : ℝ) ≤ 0.5 →
      sampleEnergy [(5, 0.25), (7, 0.5), (9, 1)] 0.3 = 7) ∧
    ((∀ q ∈ ([((5 : ℝ), (0.25 : ℝ)), (7, 0.5), (9, 1)] : List (ℝ × ℝ)),
        q.2 < 0.3) →
      sampleEnergy [(5, 0.25), (7, 0.5), (9, 1)] 0.3 =
        (([((5 : ℝ), (0.25 : ℝ)), (7, 0.5), (9, 1)] :
          List (ℝ × ℝ)).getLastD (0, 0)).1) ∧
    sampleEnergy [(5, 0.25), (7, 0.5), (9, 1)] 0 = 5 ∧
    sampleEnergy [(5, 0.25), (7, 0.5), (9, 1)] 0.3 = 7 :=
  ⟨⟨by norm_num, by norm_num⟩,
    (spectrum_sample_C4 [(5, 0.25), (7, 0.5), (9, 1)] [(5, 0.25)]
      [(9, 1)] (7, 0.5) 0.3 (by norm_num) (by norm_num)).1,
    ((spectrum_sample_C4 [(5, 0.25), (7, 0.5), (9, 1)] [(5, 0.25)]
      [(9, 1)] (7, 0.5) 0.3 (by norm_num) (by norm_num)).2.1),
    ((spectrum_sample_C4 [(5, 0.25), (7, 0.5), (9, 1)] [(5, 0.25)]
      [(9, 1)] (7, 0.5) 0.3 (by norm_num) (by norm_num)).2.2)⟩

/-- C2: with `alpha = 1` the backward sampler always takes the direct-reuse
branch: the particle energy equals the returned source energy, and the
weight is exactly `2 * totalArea * pi` with `totalArea = c[2]` (the sum of
the three pairwise products of the detector extents) in cm^2 — numerically
`16000000 * pi`. -/
theorem backward_alphaOne_C2 (spectrum : List (ℝ × ℝ)) (s : GoupilState)
    (r1 r2 r3 r4 r5 r6 r7 : ℝ) (h7 : r7 < 1) :
    (RandomiseBackward spectrum 1 s [r1, r2, r3, r4, r5, r6, r7]).map
        (fun o => o.1.energy) =
      (RandomiseBackward spectrum 1 s [r1, r2, r3, r4, r5, r6, r7]).map
        (fun o => o.2) ∧
    (RandomiseBackward spectrum 1 s [r1, r2, r3, r4, r5, r6, r7]).map
        (fun o => o.1.weight) =
      some (2 * ((detectorSize 0 * detectorSize 1 +
        detectorSize 1 * detectorSize 2 +
        detectorSize 2 * detectorSize 0) / cm2) * Real.pi) ∧
    (RandomiseBackward spectrum 1 s [r1, r2, r3, r4, r5, r6, r7]).map
        (fun o => o.1.weight) = some (16000000 * Real.pi) := by
  simp only [RandomiseBackward]
  rw [if_pos h7]
  refine ⟨rfl, ?_, ?_⟩ <;>
    · refine congrArg some ?_
      show 2 * c2 / cm2 * Real.pi / 1 = _
      rw [div_one]
      norm_num [c2, c1, c0, detectorSize, cm2, cm, m, mm,
        Matrix.cons_val_zero, Matrix.cons_val_one, Matrix.head_cons,
        Matrix.cons_val_two, Matrix.tail_cons]

/-- C2 witness at a concrete draw list whose branch draw is 0 < 1. -/
theorem backward_alphaOne_C2_witness :
    (0 : ℝ) < 1 ∧
    ((RandomiseBackward exSpec 1 st0 [0.3, 0.3, 0.3, 0.3, 0.3, 0.3, 0]).map
        (fun o => o.1.energy) =
      (RandomiseBackward exSpec 1 st0 [0.3, 0.3, 0.3, 0.3, 0.3, 0.3, 0]).map
        (fun o => o.2) ∧
    (RandomiseBackward exSpec 1 st0 [0.3, 0.3, 0.3, 0.3, 0.3, 0.3, 0]).map
        (fun o => o.1.weight) =
      some (2 * ((detectorSize 0 * detectorSize 1 +
        detectorSize 1 * detectorSize 2 +
        detectorSize 2 * detectorSize 0) / cm2) * Real.pi) ∧
    (RandomiseBackward exSpec 1 st0 [0.3, 0.3, 0.3, 0.3, 0.3, 0.3, 0]).map
        (fun o => o.1.weight) = some (16000000 * Real.pi)) :=
  ⟨by norm_num,
    backward_alphaOne_C2 exSpec st0 0.3 0.3 0.3 0.3 0.3 0.3 0 (by norm_num)⟩

/-- C8 (counterexample): `RandomiseBackward` does not validate `alpha`:
called with `alpha = 2`, outside [0, 1], it does not fail fast but
produces a sample normally. -/
theorem backward_alpha_C8_cex :
    ¬ ((2 : ℝ) ≤ 1) ∧
    (RandomiseBackward exSpec 2 st0 [0, 0, 0, 0, 0, 0, 0, 0]).isSome =
      true := by
  refine ⟨by norm_num, ?_⟩
  simp only [RandomiseBackward]
  rw [if_pos (by norm_num : (0 : ℝ) < 2)]
  rfl

/-- C8 (amended): `RandomiseBackward` performs no validation of `alpha` —
any `alpha` yields a normally produced sample; and with `alpha = 0` the
direct-reuse branch (whose weight is divided by `alpha`) is never taken:
every sample's energy comes from the log-uniform auxiliary branch. -/
theorem backward_alpha_C8 (spectrum : List (ℝ × ℝ)) (s : GoupilState)
    (r1 r2 r3 r4 r5 r6 rb re : ℝ) (hb : 0 ≤ rb) :
    (RandomiseBackward spectrum 0 s [r1, r2, r3, r4, r5, r6, rb, re]).map
        (fun o => o.1.energy) =
      some (emin *
        Real.exp (Real.log (sampleEnergy spectrum r6 / emin) * re)) ∧
    ∀ a : ℝ,
      (RandomiseBackward spectrum a s
        [r1, r2, r3, r4, r5, r6, rb, re]).isSome = true := by
  constructor
  · simp only [RandomiseBackward]
    rw [if_neg (not_lt.mpr hb)]
    rfl
  · intro a
    simp only [RandomiseBackward]
    by_cases hc : rb < a
    · rw [if_pos hc]; rfl
    · rw [if_neg hc]; rfl

/-- C8 witness at the all-zero draw list. -/
theorem backward_alpha_C8_witness :
    (0 : ℝ) ≤ 0 ∧
    ((RandomiseBackward exSpec 0 st0 [0, 0, 0, 0, 0, 0, 0, 0]).map
        (fun o => o.1.energy) =
      some (emin *
        Real.exp (Real.log (sampleEnergy exSpec 0 / emin) * 0)) ∧
    ∀ a : ℝ,
      (RandomiseBackward exSpec a st0
        [0, 0, 0, 0, 0, 0, 0, 0]).isSome = true) :=
  ⟨le_refl 0, backward_alpha_C8 exSpec st0 0 0 0 0 0 0 0 0 (le_refl 0)⟩

/-- Wraps the range invariant of the auxiliary energy branch: a produced
sample's energy lies in `[emin, sourceEnergy)`. -/
def auxEnergyInRange : Option (GoupilState × ℝ) → Prop
  | some o => emin ≤ o.1.energy ∧ o.1.energy < o.2
  | none => False

/-- C10: whenever the backward sampler takes the auxiliary energy branch
and the drawn source energy exceeds the floor `emin = 0.01`, the produced
energy `emin * exp(u * ln(sourceEnergy/emin))` with `u` in [0, 1) lies in
`[emin, sourceEnergy)`: never below the floor, never at or above the drawn
source energy. -/
theorem backward_aux_range_C10 (spectrum : List (ℝ × ℝ)) (alpha : ℝ)
    (s : GoupilState) (r1 r2 r3 r4 r5 r6 rb re : ℝ)
    (hb : ¬ rb < alpha) (hre0 : 0 ≤ re) (hre1 : re < 1)
    (hse : emin < sampleEnergy spectrum r6) :
    auxEnergyInRange
      (RandomiseBackward spectrum alpha s
        [r1, r2, r3, r4, r5, r6, rb, re]) := by
  simp only [RandomiseBackward]
  rw [if_neg hb]
  show emin ≤ emin *
      Real.exp (Real.log (sampleEnergy spectrum r6 / emin) * re) ∧
    emin * Real.exp (Real.log (sampleEnergy spectrum r6 / emin) * re) <
      sampleEnergy spectrum r6
  have hemin : (0 : ℝ) < emin := by norm_num [emin]
  have hse0 : (0 : ℝ) < sampleEnergy spectrum r6 := lt_trans hemin hse
  have hdiv : (1 : ℝ) < sampleEnergy spectrum r6 / emin :=
    (one_lt_div hemin).mpr hse
  have hlnr : 0 < Real.log (sampleEnergy spectrum r6 / emin) :=
    Real.log_pos hdiv
  constructor
  · exact le_mul_of_one_le_right hemin.le
      (Real.one_le_exp (mul_nonneg hlnr.le hre0))
  · have hexp : Real.exp (Real.log (sampleEnergy spectrum r6 / emin) * re) <
        Real.exp (Real.log (sampleEnergy spectrum r6 / emin)) :=
      Real.exp_lt_exp.mpr (mul_lt_of_lt_one_right hlnr hre1)
    calc emin * Real.exp (Real.log (sampleEnergy spectrum r6 / emin) * re) <
        emin * Real.exp (Real.log (sampleEnergy spectrum r6 / emin)) :=
          (mul_lt_mul_left hemin).mpr hexp
      _ = emin * (sampleEnergy spectrum r6 / emin) := by
          rw [Real.exp_log (by positivity)]
      _ = sampleEnergy spectrum r6 := by field_simp

/-- C10 witness: auxiliary branch forced (`alpha = 0`), source energy 1
from the one-line table, log-uniform draw 0. -/
theorem backward_aux_range_C10_witness :
    (¬ ((0 : ℝ) < 0)) ∧ (0 : ℝ) ≤ 0 ∧ (0 : ℝ) < 1 ∧
    emin < sampleEnergy exSpec 0.5 ∧
    auxEnergyInRange
      (RandomiseBackward exSpec 0 st0 [0, 0, 0, 0, 0, 0.5, 0, 0]) := by
  have hse : sampleEnergy exSpec 0.5 = 1 := by
    rw [exSpec, sampleEnergy]
    simp only [scanEnergy]
    rw [if_pos (by norm_num)]
  refine ⟨by norm_num, le_refl 0, by norm_num, ?_, ?_⟩
  · rw [hse]; norm_num [emin]
  · exact backward_aux_range_C10 exSpec 0 st0 0 0 0 0 0 0.5 0 0
      (by norm_num) (le_refl 0) (by norm_num) (by rw [hse]; norm_num [emin])

/-- C7 (counterexample): constructing from the all-zero-intensity table
`[(1, 0)]` is not detected — construction terminates normally and returns a
table (here with cumulative weight 0, not the required 1; the IEEE code
would produce NaN), so no fatal configuration error is raised. -/
theorem spectrum_allzero_C7_cex :
    normalizeSpectrum [((1 : ℝ), (0 : ℝ))] = [((1 : ℝ), (0 : ℝ))] ∧
    ((normalizeSpectrum [((1 : ℝ), (0 : ℝ))]).map Prod.snd).getLastD 0 ≠
      1 := by
  norm_num [normalizeSpectrum, cumulate]

/-- C7 (amended): construction from an all-zero-intensity table is NOT
checked: the zero-sum division goes through unchecked, construction
completes and yields a degenerate table — the energies are kept but the
cumulative weights are garbage (all 0 under the embedding's total real
division, NaN in the IEEE code) and the final entry is not 1.0. -/
theorem spectrum_allzero_C7 (raw : List (ℝ × ℝ))
    (h0 : ∀ p ∈ raw, p.2 = 0) :
    normalizeSpectrum raw = (raw.map fun p => (p.1, 0)) ∧
    ((normalizeSpectrum raw).map Prod.snd).getLastD 0 ≠ 1 := by
  have he : normalizeSpectrum raw = (raw.map fun p => (p.1, 0)) :=
    cumulate_allzero _ raw h0
  refine ⟨he, ?_⟩
  rw [he, map_zero_getLastD]
  norm_num

/-- C7 witness at the all-zero table `[(1, 0)]`. -/
theorem spectrum_allzero_C7_witness :
    (∀ p ∈ [((1 : ℝ), (0 : ℝ))], p.2 = 0) ∧
    (normalizeSpectrum [((1 : ℝ), (0 : ℝ))] =
        (([((1 : ℝ), (0 : ℝ))]).map fun p => (p.1, 0)) ∧
      ((normalizeSpectrum [((1 : ℝ), (0 : ℝ))]).map Prod.snd).getLastD 0 ≠
        1) :=
  ⟨by norm_num, spectrum_allzero_C7 _ (by norm_num)⟩

end

end G4Geometry
